import Mathlib

/-!
Verification of the import-statement parsing core of `importanize`
(`importanize/parser.py`): the line grouper `find_imports_from_lines`,
the tokenizer `tokenize_import_lines`, and the statement parsers
`parse_import_statement` / `parse_statements`.

Lines and tokens are Lean `String`s; Python string predicates are
embedded at the character-list level (`String.data`) so that theorems can
be proved by induction and concrete claims can be evaluated by the kernel.
Python exceptions are embedded as explicit error values: a generator that
raises after yielding some items is embedded as a function returning the
yielded items paired with an `Option` error.
-/

set_option autoImplicit false

/-- Tokens in the source are a `str` subclass (`Token`); their only added
behaviour is the `is_comment` predicate, so we embed them as `String`. -/
abbrev Token := String

/-- Python `s.startswith(p)` on the character list of `s`. -/
def pyStartsWith (s p : String) : Bool := p.data.isPrefixOf s.data

/-- Python `s.endswith(p)` on the character list of `s`. -/
def pyEndsWith (s p : String) : Bool := p.data.isSuffixOf s.data

/-- Python `c in s` for a single character `c`. -/
def pyContainsChar (s : String) (c : Char) : Bool := s.data.contains c

/-- The `Token.is_comment` property: the token text starts with `#`. -/
def isComment (t : Token) : Bool := pyStartsWith t "#"

/-- Whether a character list contains three consecutive double-quote
characters anywhere. -/
def containsTriple : List Char → Bool
  | '"' :: '"' :: '"' :: _ => true
  | _ :: cs => containsTriple cs
  | [] => false

/-- Character-level body of `opensComment`: the line contains a first
occurrence of a triple double-quote with no further triple double-quote
starting at or after the position three past it.  This is
`line.find('\x22\x22\x22') >= 0 and line.find('\x22\x22\x22', i + 3) < 0`
from `find_imports_from_lines`. -/
def opensCommentL : List Char → Bool
  | '"' :: '"' :: '"' :: cs => !(containsTriple cs)
  | _ :: cs => opensCommentL cs
  | [] => false

/-- The grouper's test for the start of a block comment. -/
def opensComment (line : String) : Bool := opensCommentL line.data

/-- A line group paired with its source line numbers, as yielded by
`find_imports_from_lines`. -/
abbrev LineGroup := List String × List Nat

/-- Control state of the grouper loop in `find_imports_from_lines`.
`top` is the head of the `while True` loop; `inComment` is the inner loop
discarding block-comment lines; `afterComment` is the single fetch of the
line following a comment's closing line (which is *not* re-checked for a
comment opener); `inParen` / `inSlash` are the two continuation-collecting
loops, carrying the group built so far. -/
inductive GState where
  | top : GState
  | inComment : GState
  | afterComment : GState
  | inParen (lines : List String) (nums : List Nat) : GState
  | inSlash (lines : List String) (nums : List Nat) : GState
  deriving DecidableEq

/-- Processing of one candidate line at lines 81-105 of the source: the
`import `/`from ` check, then the parenthesis-continuation check, then the
backslash-continuation check, then the yield. -/
def startGroup (n : Nat) (line : String) : GState × List LineGroup :=
  if !(pyStartsWith line "from ") && !(pyStartsWith line "import ") then
    (.top, [])
  else if pyContainsChar line '(' && !(pyContainsChar line ')') then
    (.inParen [line] [n], [])
  else if pyEndsWith line "\\" then
    (.inSlash [line] [n], [])
  else
    (.top, [([line], [n])])

/-- One step of the grouper: consume one `(line_number, line)` pair in the
given control state, producing the next state and the groups yielded at
this step.  The `afterComment` state reaches `startGroup` without the
`opensComment` test, exactly as the line fetched at lines 76-79 of the
source skips the comment check at lines 66-67. -/
def stepLine : GState → Nat × String → GState × List LineGroup
  | .top, (n, line) =>
    if opensComment line then (.inComment, []) else startGroup n line
  | .inComment, (_, line) =>
    (if pyEndsWith line "\"\"\"" then .afterComment else .inComment, [])
  | .afterComment, (n, line) => startGroup n line
  | .inParen ls ns, (n, line) =>
    let ls' := ls ++ [line]
    let ns' := ns ++ [n]
    if pyContainsChar line ')' then
      if pyEndsWith line "\\" then (.inSlash ls' ns', [])
      else (.top, [(ls', ns')])
    else (.inParen ls' ns', [])
  | .inSlash ls ns, (n, line) =>
    let ls' := ls ++ [line]
    let ns' := ns ++ [n]
    if pyEndsWith line "\\" then (.inSlash ls' ns', []) else (.top, [(ls', ns')])

/-- Behaviour of the grouper when the input is exhausted in a given state.
In `top`, `inComment` and `afterComment` the `StopIteration` from
`next(iterator)` is caught and the generator returns silently (lines
60-63, 70-73, 76-79).  In the continuation loops (lines 92-95 and 100-103)
`next(iterator)` is called bare inside a generator, so on exhausted input
the `StopIteration` becomes a `RuntimeError` under PEP 479
(Python >= 3.7, which this code requires since `parse_statements` relies
on lazy `filter`): the exhaustion is an error, not a silent stop. -/
def eofError : GState → Bool
  | .inParen _ _ => true
  | .inSlash _ _ => true
  | _ => false

/-- Run the grouper from a control state over the remaining numbered
lines, returning all yielded groups in order and whether the generator
terminated with an error (`true`) or silently (`false`). -/
def runG : GState → List (Nat × String) → List LineGroup × Bool
  | s, [] => ([], eofError s)
  | s, p :: ps =>
    let r := stepLine s p
    let rr := runG r.1 ps
    (r.2 ++ rr.1, rr.2)

/-- The grouper `find_imports_from_lines`, started at the top of its loop. -/
def find_imports_from_lines (input : List (Nat × String)) : List LineGroup × Bool :=
  runG .top input

/-- Whether a character is one of the split characters of the tokenizer's
regular expression `' +|[\(\)]|([,\x5c])|(#.*)'`. -/
def isDelim (c : Char) : Bool :=
  c == ' ' || c == '(' || c == ')' || c == ',' || c == '\\' || c == '#'

/-- Character-level splitting of one line by the tokenizer's regular
expression: runs of spaces and single parentheses are discarded, a comma
or backslash becomes its own token, `#` starts a comment token running to
the end of the line, and all other maximal runs are word tokens.  Empty
fragments are discarded (`filter(None, ...)`).  `acc` is the word run
collected so far. -/
def splitChars (acc : List Char) : List Char → List (List Char)
  | [] => if acc.isEmpty then [] else [acc]
  | c :: cs =>
    if c == ' ' || c == '(' || c == ')' then
      (if acc.isEmpty then [] else [acc]) ++ splitChars [] cs
    else if c == ',' || c == '\\' then
      (if acc.isEmpty then [] else [acc]) ++ [c] :: splitChars [] cs
    else if c == '#' then
      (if acc.isEmpty then [] else [acc]) ++ [c :: cs]
    else splitChars (acc ++ [c]) cs

/-- The token texts of one physical line, before comment re-association. -/
def lineWords (line : String) : List Token :=
  (splitChars [] line.data).map (fun cs => String.mk cs)

/-- Python `list.insert(i, x)`: insert at position `i`, appending when `i`
is past the end. -/
def insertAt {α : Type} : Nat → α → List α → List α
  | 0, x, l => x :: l
  | _ + 1, x, [] => [x]
  | n + 1, x, a :: l => a :: insertAt n x l

/-- The comment re-association loop of `tokenize_import_lines` (lines
115-125): `ts` is `_tokens`, `i` the index of the current word in the
filtered word stream.  A comment token whose predecessor
`_tokens[max(i - 1, 0)]` is a comma is inserted before that comma;
every other token is appended. -/
def spliceAux : List Token → Nat → List Token → List Token
  | ts, _, [] => ts
  | ts, i, w :: ws =>
    if isComment w && !ts.isEmpty && (ts.getD (i - 1) "" == ",") then
      spliceAux (insertAt (i - 1) w ts) (i + 1) ws
    else
      spliceAux (ts ++ [w]) (i + 1) ws

/-- Per-line tokenization with the comment-before-comma re-association. -/
def spliceLine (ws : List Token) : List Token := spliceAux [] 0 ws

/-- Errors raised by the tokenizer and parser; each constructor records
the Python exception it embeds.  None of them carries source line
numbers, because none of the corresponding Python exceptions does. -/
inductive PError where
  /-- `IndexError` from `segment[0]` in `tokenize_import_lines` when a
  backslash-split segment is empty. -/
  | emptySegment : PError
  /-- `IndexError` from `tokens[0]` in `parse_statements` on an empty
  token sequence. -/
  | emptyTokens : PError
  /-- `StopIteration`/`RuntimeError` from `not_comment` on a segment with
  no non-comment token. -/
  | noNonComment : PError
  /-- `ValueError` from unpacking `list_split(tokens[1:], 'import')` into
  exactly two names when it produced `n` segments instead. -/
  | unpackMismatch (n : Nat) : PError
  /-- `ValueError` from unpacking `stem.split(' as ')` into exactly two
  names when it produced `n` parts instead. -/
  | splitAsMismatch (n : Nat) : PError
  deriving DecidableEq

/-- Modelled from the spec: the `list_split` helper of the missing
`utils` module, "a general-purpose split-sequence-on-a-delimiting-element
utility"; the sequence "is partitioned at each backslash marker", so it
splits at every occurrence of the delimiter, keeps empty segments, and
yields one more segment than there are delimiters. -/
def list_split {α : Type} [DecidableEq α] (d : α) : List α → List (List α)
  | [] => [[]]
  | a :: as =>
    let r := list_split d as
    if a = d then [] :: r else (a :: r.headD []) :: r.tail

/-- The backslash re-join loop of `tokenize_import_lines` (lines
129-134): starting from `[Token('')]`, the first element of each segment
is string-concatenated onto the last accumulated token and the rest of
the segment is appended.  `segment[0]` on an empty segment is a Python
`IndexError`. -/
def rejoin (acc : List Token) : List (List Token) → Except PError (List Token)
  | [] => .ok acc
  | [] :: _ => .error .emptySegment
  | (s :: srest) :: segs =>
    rejoin (acc.dropLast ++ (acc.getLastD "" ++ s) :: srest) segs

/-- The tokenizer `tokenize_import_lines`: per-line splitting and comment
re-association, concatenation across lines, then the backslash re-join. -/
def tokenize_import_lines (import_lines : List String) : Except PError (List Token) :=
  let tokens := (import_lines.map (fun l => spliceLine (lineWords l))).flatten
  rejoin [""] (list_split "\\" tokens)

/-- Split a character list at every non-overlapping occurrence of
`' as '`, scanning left to right: Python `s.split(' as ')`. -/
def splitAsChars : List Char → List (List Char)
  | ' ' :: 'a' :: 's' :: ' ' :: rest => [] :: splitAsChars rest
  | c :: rest =>
    match splitAsChars rest with
    | [] => [[c]]
    | s :: ss => (c :: s) :: ss
  | [] => [[]]

/-- Python `s.split(' as ')`. -/
def splitAs (s : String) : List String :=
  (splitAsChars s.data).map (fun cs => String.mk cs)

/-- Python `' as ' in s`. -/
def containsAsKw (s : String) : Bool := (splitAs s).length != 1

/-- Python `s.rsplit('.', 1)`: at most one split at the rightmost dot. -/
def joinDots : List String → String
  | [] => ""
  | [s] => s
  | s :: rest => s ++ "." ++ joinDots rest

/-- Python `s.rsplit('.', 1)` as used on stems: one element when `s` has
no dot, otherwise the part before the last dot and the part after it. -/
def rsplitDot (s : String) : List String :=
  let parts := (list_split '.' s.data).map (fun cs => String.mk cs)
  if parts.length ≤ 1 then [s]
  else [joinDots parts.dropLast, parts.getLastD ""]

/-- One imported name of a `from` import: symbol name, optional alias,
attached comment tokens. -/
structure ImportLeaf where
  name : String
  as_name : Option String
  comments : List Token
  deriving DecidableEq, Inhabited

/-- Modelled from the spec: the `ImportLeaf` constructor of the missing
`statements` module.  A leaf holds "the imported symbol name, an optional
alias"; a name of the form `x as y` is split into name and alias, and "if
alias equals the symbol name, the alias must be dropped". -/
def mkImportLeaf (name : String) (comments : List Token) : ImportLeaf :=
  match splitAs name with
  | [n, a] => if n = a then ⟨n, none, comments⟩ else ⟨n, some a, comments⟩
  | _ => ⟨name, none, comments⟩

/-- Modelled from the spec: the `ImportStatement` record of the missing
`statements` module — "the module path (stem), an ordered sequence of
Import Leafs, the ordered sequence of original source line numbers it
spans, and an ordered sequence of comment tokens attached directly to the
statement". -/
structure ImportStatement where
  line_numbers : List Nat
  stem : String
  leafs : List ImportLeaf
  comments : List Token
  deriving DecidableEq, Inhabited

/-- The statement parser `parse_import_statement` for a plain-import
stem.  Modelled parts from the spec: the missing `DOTS` matcher splits "a
leading-dots relative-import stem into dot prefix + remaining path"
(embedded as `takeWhile`/`dropWhile` on the dot characters).  Everything
else follows the source: the bare relative shorthand folds the final
dot-separated segment into an implicit leaf; `a.b as c` splits an
implicit leaf off a dotted stem; a redundant `x as x` alias on a leafless
stem is elided; `stem.split(' as ')` producing more than two parts is a
`ValueError`. -/
def parse_import_statement (stem : String) (line_numbers : List Nat)
    (comments : List Token) : Except PError ImportStatement :=
  if pyStartsWith stem "." then
    let ds := String.mk (stem.data.takeWhile (fun c => c = '.'))
    let r := String.mk (stem.data.dropWhile (fun c => c = '.'))
    match rsplitDot r with
    | [a, b] => .ok ⟨line_numbers, ds ++ a, [mkImportLeaf b []], comments⟩
    | _ => .ok ⟨line_numbers, ds, [mkImportLeaf r []], comments⟩
  else
    let stemSplit := rsplitDot stem
    if stemSplit.length == 2 && containsAsKw stem then
      .ok ⟨line_numbers, stemSplit.getD 0 "",
           [mkImportLeaf (stemSplit.getD 1 "") []], comments⟩
    else if containsAsKw stem then
      match splitAs stem with
      | [name, asName] =>
        .ok ⟨line_numbers, if name = asName then name else stem, [], comments⟩
      | parts => .error (.splitAsMismatch parts.length)
    else
      .ok ⟨line_numbers, stem, [], comments⟩

/-- The `not_comment` helper of `parse_statements`: the first non-comment
token of a segment, or an error when there is none (a `StopIteration`
escaping into the generator). -/
def notComment : List Token → Option Token
  | [] => none
  | t :: ts => if isComment t then notComment ts else some t

/-- One comma-separated segment of a plain-import group: the first
non-comment token is the stem, the comment tokens become statement-level
comments. -/
def parseSegment (lns : List Nat) (seg : List Token) : Except PError ImportStatement :=
  match notComment seg with
  | none => .error .noNonComment
  | some stem => parse_import_statement stem lns (seg.filter (fun t => isComment t))

/-- The per-segment loop of the `import` branch of `parse_statements`:
statements are yielded per segment in order, and a failing segment stops
the generator, keeping the statements already yielded. -/
def runSegs (lns : List Nat) : List (List Token) → List ImportStatement × Option PError
  | [] => ([], none)
  | seg :: rest =>
    match parseSegment lns seg with
    | .error e => ([], some e)
    | .ok st =>
      let r := runSegs lns rest
      (st :: r.1, r.2)

/-- The leaf loop of the `from` branch of `parse_statements`: each
comma-separated sub-segment yields one `ImportLeaf` whose name is its
first non-comment token and whose comments are its comment tokens. -/
def runLeafs : List (List Token) → Except PError (List ImportLeaf)
  | [] => .ok []
  | seg :: rest =>
    match notComment seg with
    | none => .error .noNonComment
    | some n => (runLeafs rest).map
        (fun ls => mkImportLeaf n (seg.filter (fun t => isComment t)) :: ls)

/-- The `from` branch of `parse_statements` (lines 223-239): unpacking
`list_split(tokens[1:], 'import')` into exactly a stem part and a leaf
part (a `ValueError` otherwise), taking the stem part's first non-comment
token, and building one statement with one leaf per comma-separated
sub-segment of the leaf part. -/
def parseFrom (lns : List Nat) (rest : List Token) : Except PError ImportStatement :=
  match list_split "import" rest with
  | [stemSeg, leafSeg] =>
    match notComment stemSeg with
    | none => .error .noNonComment
    | some stem =>
      (runLeafs (list_split "," leafSeg)).map (fun leafs => ⟨lns, stem, leafs, []⟩)
  | segs => .error (.unpackMismatch segs.length)

/-- Dispatch of `parse_statements` on one token sequence: the `import`
branch yields one statement per comma-separated segment, every other
non-empty head goes to the `from` branch; `tokens[0]` on an empty
sequence is an `IndexError`. -/
def parseTokens (tokens : List Token) (lns : List Nat) :
    List ImportStatement × Option PError :=
  match tokens with
  | [] => ([], some .emptyTokens)
  | t :: rest =>
    if t == "import" then runSegs lns (list_split "," rest)
    else
      match parseFrom lns rest with
      | .error e => ([], some e)
      | .ok st => ([st], none)

/-- Processing of one line group by `parse_statements`: tokenize, then
parse the token sequence. -/
def parseGroup (g : LineGroup) : List ImportStatement × Option PError :=
  match tokenize_import_lines g.1 with
  | .error e => ([], some e)
  | .ok ts => parseTokens ts g.2

/-- The generator `parse_statements` over a sequence of line groups: it
yields statements group by group and stops at the first error, keeping
everything yielded before it. -/
def parse_statements : List LineGroup → List ImportStatement × Option PError
  | [] => ([], none)
  | g :: gs =>
    match parseGroup g with
    | (sts, some e) => (sts, some e)
    | (sts, none) =>
      let r := parse_statements gs
      (sts ++ r.1, r.2)

/-! ### Claim theorems: concrete behaviours -/

/-- C1 (code bug): the claim says that input ending mid-parenthesis,
mid-backslash-continuation or mid-block-comment makes the grouper stop
yielding silently, never raising.  The code only does so for the
block-comment case, whose `next(iterator)` calls are wrapped in
`try/except StopIteration`; the parenthesis- and backslash-continuation
loops (lines 92-95 and 100-103) call `next(iterator)` bare inside a
generator, so on truncated input the `StopIteration` becomes a
`RuntimeError` (PEP 479) that propagates to the caller.  This theorem
evaluates the grouper at the three truncation kinds: the first two end in
an error, only the third is silent. -/
theorem c1_truncation_behavior :
    find_imports_from_lines [(1, "from a import (b,")] = ([], true) ∧
    find_imports_from_lines [(1, "import a, \\")] = ([], true) ∧
    find_imports_from_lines [(1, "\"\"\""), (2, "x")] = ([], false) :=
  ⟨rfl, rfl, rfl⟩

/-- C3: tokenizing then parsing the two-line group
`from a import (b,  # keep` / `    c)` yields one from-import statement
whose leaf `b` carries the comment token `# keep` and whose leaf `c`
carries no comment: the comment, whose predecessor on its physical line
is the comma, is spliced before that comma by the tokenizer (visible in
the token sequence), so it lands in leaf `b`'s segment. -/
theorem c3_comment_before_comma :
    tokenize_import_lines ["from a import (b,  # keep", "    c)"] =
      .ok ["from", "a", "import", "b", "# keep", ",", "c"] ∧
    parse_statements [(["from a import (b,  # keep", "    c)"], [1, 2])] =
      ([⟨[1, 2], "a", [⟨"b", none, ["# keep"]⟩, ⟨"c", none, []⟩], []⟩], none) :=
  ⟨rfl, rfl⟩

/-- C4: tokenizing then parsing the single-line group
`import os, sys  # comment` yields exactly two statements, `os` with no
comments and `sys` carrying `# comment` as a statement-level comment, and
no further statement after the comment. -/
theorem c4_trailing_comment :
    parse_statements [(["import os, sys  # comment"], [1])] =
      ([⟨[1], "os", [], []⟩, ⟨[1], "sys", [], ["# comment"]⟩], none) :=
  rfl

/-- C5: parsing the plain-import stem `.foo.bar` (bare relative
shorthand) produces a statement with stem `.foo` and the single implicit
leaf `bar`; the same statement results from the full pipeline on the
group `import .foo.bar`. -/
theorem c5_relative_shorthand :
    parse_import_statement ".foo.bar" [1] [] =
      .ok ⟨[1], ".foo", [⟨"bar", none, []⟩], []⟩ ∧
    parse_statements [(["import .foo.bar"], [1])] =
      ([⟨[1], ".foo", [⟨"bar", none, []⟩], []⟩], none) :=
  ⟨rfl, rfl⟩

/-- C6: parsing the plain-import stem `foo as foo` (self-alias, no dot,
no leafs) yields a statement with stem `foo`, no leafs and no alias: the
textually identical alias is dropped entirely. -/
theorem c6_self_alias :
    parse_import_statement "foo as foo" [1] [] = .ok ⟨[1], "foo", [], []⟩ :=
  rfl

/-- C10: the grouper tests for a triple-quoted opener only on lines read
at the top of its loop; the single line fetched right after a block
comment's closing line is only tested against the `import `/`from `
prefix.  On input with two consecutive triple-quoted blocks, the second
opener (line 4) sits exactly on that fetched line, so the second block is
never skipped and the line `import os` inside it (line 5) is emitted as
an import group. -/
theorem c10_double_block :
    find_imports_from_lines
      [(1, "\"\"\""), (2, "x"), (3, "\"\"\""), (4, "\"\"\""),
       (5, "import os"), (6, "\"\"\"")] =
      ([(["import os"], [5])], false) :=
  rfl

/-- C2 counterexample: the claim says the hard failure on a malformed
from-form group "reports the offending line numbers".  It does not: the
whole result of `parse_statements` on the malformed group `from a b` is
identical whether the group sits at line 7 or at line 99, so the failure
value carries no information about the offending line numbers (in the
source it is a bare `ValueError` from tuple unpacking). -/
theorem c2_counterexample :
    parse_statements [(["from a b"], [7])] = ([], some (.unpackMismatch 1)) ∧
    parse_statements [(["from a b"], [99])] = ([], some (.unpackMismatch 1)) :=
  ⟨rfl, rfl⟩

/-- C9 counterexample: the claim says every group yielded by
`find_imports_from_lines` tokenizes to a sequence whose first token is
exactly `import` or `from`.  The grouper yields the backslash-continued
group `import \` / `os`, but the tokenizer's backslash re-join
concatenates the fragment after the backslash onto the token before it,
producing the single token `importos`, which is neither `import` nor
`from`. -/
theorem c9_counterexample :
    find_imports_from_lines [(1, "import \\"), (2, "os")] =
      ([(["import \\", "os"], [1, 2])], false) ∧
    tokenize_import_lines ["import \\", "os"] = .ok ["importos"] ∧
    ("importos" ≠ "import" ∧ "importos" ≠ "from") :=
  ⟨rfl, rfl, by decide, by decide⟩

/-! ### Ordering and propagation lemmas for `parse_statements` -/

/-- Splitting a list at a delimiter that does not occur yields the whole
list as the single segment. -/
theorem list_split_of_not_mem {α : Type} [DecidableEq α] {d : α} {l : List α}
    (h : d ∉ l) : list_split d l = [l] := by
  induction l with
  | nil => rfl
  | cons a as ih =>
    simp only [List.mem_cons, not_or] at h
    have hne : ¬a = d := fun e => h.1 e.symm
    simp [list_split, ih h.2, hne]

/-- `parse_statements` processes groups left to right: when a first batch
of groups parses without error, the statements of a longer run are the
statements of the first batch followed by those of the remainder, and the
error status is that of the remainder. -/
theorem parse_statements_append (gs₁ gs₂ : List LineGroup)
    (h : (parse_statements gs₁).2 = none) :
    parse_statements (gs₁ ++ gs₂) =
      ((parse_statements gs₁).1 ++ (parse_statements gs₂).1,
       (parse_statements gs₂).2) := by
  induction gs₁ with
  | nil => simp [parse_statements]
  | cons g gs ih =>
    rcases hg : parseGroup g with ⟨sts, oe⟩
    cases oe with
    | some e => simp [parse_statements, hg] at h
    | none =>
      simp only [parse_statements, hg] at h
      simp [parse_statements, hg, ih h, List.append_assoc]

/-- C2 (amended): for every line group whose token sequence starts with a
token other than `import` and contains no `import` keyword afterwards,
parsing the group is a hard failure that propagates to the caller of
`parse_statements`, and no partial statement is produced for that group:
appending the malformed group to any error-free run adds no statement and
ends the run with the unpack error.  The error value is the constant
`unpackMismatch 1` — the `ValueError` raised by unpacking the single
`list_split` segment — and is the same for every `lns`, so it does not
itself report the offending line numbers (the original claim's
"reports the offending line numbers" does not hold; see the
counterexample). -/
theorem c2_amended (gs : List LineGroup) (ls : List String) (lns : List Nat)
    (ts : List Token)
    (htok : tokenize_import_lines ls = .ok ts)
    (hne : ts ≠ []) (hhead : ts.headD "" ≠ "import")
    (hmem : "import" ∉ ts.tail)
    (hok : (parse_statements gs).2 = none) :
    parse_statements (gs ++ [(ls, lns)]) =
      ((parse_statements gs).1, some (PError.unpackMismatch 1)) := by
  have hbad : parseGroup (ls, lns) = ([], some (.unpackMismatch 1)) := by
    cases ts with
    | nil => exact absurd rfl hne
    | cons t rest =>
      simp only [List.headD_cons] at hhead
      simp only [List.tail_cons] at hmem
      simp [parseGroup, htok, parseTokens, hhead, parseFrom,
        list_split_of_not_mem hmem]
  rw [parse_statements_append gs [(ls, lns)] hok]
  simp [parse_statements, hbad]

/-- Witness for C2: the group `from a b` at line 7, after an error-free
group, stops parsing with the unpack error and contributes no statement. -/
theorem c2_witness :
    parse_statements ([(["import x"], [1])] ++ [(["from a b"], [7])]) =
      ((parse_statements [(["import x"], [1])]).1,
       some (PError.unpackMismatch 1)) :=
  c2_amended [(["import x"], [1])] ["from a b"] [7] ["from", "a", "b"] rfl
    (by decide) (by decide) (by decide) rfl

/-- C8: statements are emitted in the order of their originating line
groups — for any split of the group sequence into an error-free first
part and a remainder, the output is the statements of the first part
followed by those of the remainder — and within one plain-import group
the per-comma statements are emitted in segment order: an error-free run
of the segment loop produces exactly one statement per segment, the
`i`-th output statement being the parse of the `i`-th segment. -/
theorem c8_order :
    (∀ gs₁ gs₂ : List LineGroup, (parse_statements gs₁).2 = none →
      (parse_statements (gs₁ ++ gs₂)).1 =
        (parse_statements gs₁).1 ++ (parse_statements gs₂).1) ∧
    (∀ (lns : List Nat) (segs : List (List Token)),
      (runSegs lns segs).2 = none →
      (runSegs lns segs).1.length = segs.length ∧
      ∀ i, i < segs.length →
        parseSegment lns (segs.getD i []) =
          .ok ((runSegs lns segs).1.getD i default)) := by
  constructor
  · intro gs₁ gs₂ h
    rw [parse_statements_append gs₁ gs₂ h]
  · intro lns segs
    induction segs with
    | nil =>
      intro _
      exact ⟨rfl, fun i hi => absurd hi (by simp)⟩
    | cons seg rest ih =>
      intro h
      cases hp : parseSegment lns seg with
      | error e => simp [runSegs, hp] at h
      | ok st =>
        simp only [runSegs, hp] at h
        obtain ⟨hlen, hidx⟩ := ih h
        refine ⟨by simp [runSegs, hp, hlen], ?_⟩
        intro i hi
        cases i with
        | zero => simp [runSegs, hp]
        | succ j =>
          simp only [runSegs, hp, List.getD_cons_succ]
          exact hidx j (by simpa using hi)

/-- Witness for C8: applying the ordering theorem to a two-group run. -/
theorem c8_witness :
    (parse_statements ([(["import os, sys  # note"], [1])] ++
        [(["from a import b"], [2])])).1 =
      (parse_statements [(["import os, sys  # note"], [1])]).1 ++
      (parse_statements [(["from a import b"], [2])]).1 :=
  c8_order.1 [(["import os, sys  # note"], [1])] [(["from a import b"], [2])] rfl

/-! ### Parenthesis continuation -/

/-- Inside the parenthesis-collecting loop, every line without a closing
parenthesis is appended blindly, and the first line containing one closes
the group (when it does not end in a backslash); the grouper then
continues from the top of its loop. -/
theorem runG_paren_aux (middle : List (Nat × String)) :
    ∀ (ls : List String) (ns : List Nat) (nl : Nat) (ll : String)
      (rest : List (Nat × String)),
    (∀ p ∈ middle, pyContainsChar p.2 ')' = false) →
    pyContainsChar ll ')' = true → pyEndsWith ll "\\" = false →
    runG (.inParen ls ns) (middle ++ (nl, ll) :: rest) =
      ((ls ++ middle.map Prod.snd ++ [ll], ns ++ middle.map Prod.fst ++ [nl]) ::
        (runG .top rest).1, (runG .top rest).2) := by
  induction middle with
  | nil =>
    intro ls ns nl ll rest _ hcl hbs
    simp [runG, stepLine, hcl, hbs]
  | cons p mid ih =>
    intro ls ns nl ll rest hmid hcl hbs
    obtain ⟨n, line⟩ := p
    have hp : pyContainsChar line ')' = false := hmid (n, line) (List.mem_cons_self _ _)
    have hrec := ih (ls ++ [line]) (ns ++ [n]) nl ll rest
      (fun q hq => hmid q (List.mem_cons_of_mem _ hq)) hcl hbs
    simp only [List.cons_append, runG, stepLine, hp, Bool.false_eq_true, if_false,
      List.append_eq]
    rw [hrec]
    simp [List.append_assoc]

/-- C7: for every statement using parenthesis continuation — an opening
line that starts with `import ` or `from ` (and is not taken for a
block-comment opener) containing `(` but not `)`, followed by middle
lines without `)` and a final line containing `)` (and not ending in a
backslash, so the statement ends there) — the grouper emits one group
holding all the statement's lines in their original order together with
all their line numbers, whatever the middle lines are (blank lines and
comment lines included), and then continues normally. -/
theorem c7_paren_group (n₀ : Nat) (l₀ : String) (middle : List (Nat × String))
    (nl : Nat) (ll : String) (rest : List (Nat × String))
    (hoc : opensComment l₀ = false)
    (hsw : pyStartsWith l₀ "from " = true ∨ pyStartsWith l₀ "import " = true)
    (hop : pyContainsChar l₀ '(' = true)
    (hcl₀ : pyContainsChar l₀ ')' = false)
    (hmid : ∀ p ∈ middle, pyContainsChar p.2 ')' = false)
    (hll : pyContainsChar ll ')' = true)
    (hbs : pyEndsWith ll "\\" = false) :
    find_imports_from_lines ((n₀, l₀) :: middle ++ (nl, ll) :: rest) =
      ((l₀ :: middle.map Prod.snd ++ [ll], n₀ :: middle.map Prod.fst ++ [nl]) ::
        (runG .top rest).1, (runG .top rest).2) := by
  have hstart : startGroup n₀ l₀ = (.inParen [l₀] [n₀], []) := by
    have h1 : (!(pyStartsWith l₀ "from ") && !(pyStartsWith l₀ "import ")) = false := by
      rcases hsw with h | h <;> simp [h]
    simp [startGroup, h1, hop, hcl₀]
  have hrec := runG_paren_aux middle [l₀] [n₀] nl ll rest hmid hll hbs
  simp only [find_imports_from_lines, List.cons_append, runG, stepLine, hoc,
    Bool.false_eq_true, if_false, hstart, List.append_eq]
  rw [hrec]
  simp

/-- Witness for C7: a three-line parenthesised statement whose middle
line is blank is grouped as one group with its three line numbers. -/
theorem c7_witness :
    find_imports_from_lines
      [(1, "from a import (b,"), (2, ""), (3, "    c)")] =
      ([(["from a import (b,", "", "    c)"], [1, 2, 3])], false) := by
  have h := c7_paren_group 1 "from a import (b," [(2, "")] 3 "    c)" []
    (by decide) (Or.inl (by decide)) (by decide) (by decide)
    (by decide) (by decide) (by decide)
  simpa [runG] using h

/-! ### Head-token safety of grouper output -/

/-- A line list whose first line starts with `from ` or `import `. -/
def headOK (ls : List String) : Prop :=
  ∃ h t, ls = h :: t ∧
    (pyStartsWith h "from " = true ∨ pyStartsWith h "import " = true)

/-- Invariant carried by the grouper state: a group under construction
always begins with the candidate line that opened it. -/
def stInv : GState → Prop
  | .inParen ls _ => headOK ls
  | .inSlash ls _ => headOK ls
  | _ => True

/-- `startGroup` only opens or yields groups whose first line passed the
`from `/`import ` check. -/
theorem startGroup_inv (n : Nat) (line : String) :
    stInv (startGroup n line).1 ∧ ∀ g ∈ (startGroup n line).2, headOK g.1 := by
  by_cases hsw : pyStartsWith line "from " = true ∨ pyStartsWith line "import " = true
  · have hOK : headOK [line] := ⟨line, [], rfl, hsw⟩
    have h1 : (!(pyStartsWith line "from ") && !(pyStartsWith line "import ")) = false := by
      rcases hsw with h | h <;> simp [h]
    unfold startGroup
    rw [h1]
    simp only [Bool.false_eq_true, if_false]
    split
    · exact ⟨hOK, fun g hg => absurd hg (List.not_mem_nil g)⟩
    · split
      · exact ⟨hOK, fun g hg => absurd hg (List.not_mem_nil g)⟩
      · refine ⟨trivial, fun g hg => ?_⟩
        rw [List.mem_singleton] at hg
        rw [hg]
        exact hOK
  · rw [not_or] at hsw
    have hf : pyStartsWith line "from " = false := by
      cases h : pyStartsWith line "from "
      · rfl
      · exact absurd h hsw.1
    have hi : pyStartsWith line "import " = false := by
      cases h : pyStartsWith line "import "
      · rfl
      · exact absurd h hsw.2
    simp [startGroup, hf, hi, stInv]

/-- One grouper step preserves the construction invariant, and every
group it yields has a `from `/`import ` first line. -/
theorem stepLine_inv (s : GState) (p : Nat × String) (hs : stInv s) :
    stInv (stepLine s p).1 ∧ ∀ g ∈ (stepLine s p).2, headOK g.1 := by
  obtain ⟨n, line⟩ := p
  cases s with
  | top =>
    by_cases hoc : opensComment line = true
    · simp [stepLine, hoc, stInv]
    · have hoc' : opensComment line = false := by
        cases h : opensComment line
        · rfl
        · exact absurd h hoc
      simp only [stepLine, hoc', Bool.false_eq_true, if_false]
      exact startGroup_inv n line
  | inComment =>
    simp only [stepLine]
    constructor
    · split <;> trivial
    · intro g hg
      exact absurd hg (List.not_mem_nil g)
  | afterComment => exact startGroup_inv n line
  | inParen ls ns =>
    obtain ⟨h, t, hls, hsw⟩ := hs
    subst hls
    have hOK : headOK ((h :: t) ++ [line]) := ⟨h, t ++ [line], by simp, hsw⟩
    simp only [stepLine]
    split
    · split
      · exact ⟨hOK, fun g hg => absurd hg (List.not_mem_nil g)⟩
      · refine ⟨trivial, fun g hg => ?_⟩
        rw [List.mem_singleton] at hg
        rw [hg]
        exact hOK
    · exact ⟨hOK, fun g hg => absurd hg (List.not_mem_nil g)⟩
  | inSlash ls ns =>
    obtain ⟨h, t, hls, hsw⟩ := hs
    subst hls
    have hOK : headOK ((h :: t) ++ [line]) := ⟨h, t ++ [line], by simp, hsw⟩
    simp only [stepLine]
    split
    · exact ⟨hOK, fun g hg => absurd hg (List.not_mem_nil g)⟩
    · refine ⟨trivial, fun g hg => ?_⟩
      rw [List.mem_singleton] at hg
      rw [hg]
      exact hOK

/-- Every group yielded by the grouper from an invariant-respecting state
has a first line starting with `from ` or `import `. -/
theorem runG_headOK (input : List (Nat × String)) :
    ∀ s : GState, stInv s → ∀ g ∈ (runG s input).1, headOK g.1 := by
  induction input with
  | nil =>
    intro s _ g hg
    simp [runG] at hg
  | cons p ps ih =>
    intro s hs g hg
    simp only [runG, List.mem_append] at hg
    rcases hg with hg | hg
    · exact (stepLine_inv s p hs).2 g hg
    · exact ih (stepLine s p).1 (stepLine_inv s p hs).1 g hg

/-- `String.mk` is inverse to `String.data`. -/
theorem string_mk_data (s : String) : String.mk s.data = s := rfl

/-- Character data of a string concatenation. -/
theorem string_data_append (a b : String) : (a ++ b).data = a.data ++ b.data := by
  cases a
  cases b
  rfl

/-- A maximal run of non-delimiter characters followed by a space is
flushed as one word by the line splitter. -/
theorem splitChars_word (w : List Char) :
    ∀ (acc cs : List Char), (∀ c ∈ w, isDelim c = false) →
    splitChars acc (w ++ ' ' :: cs) =
      (if (acc ++ w).isEmpty then [] else [acc ++ w]) ++ splitChars [] cs := by
  induction w with
  | nil =>
    intro acc cs _
    simp [splitChars]
  | cons c w ih =>
    intro acc cs hw
    have hc : isDelim c = false := hw c (List.mem_cons_self _ _)
    simp only [isDelim, Bool.or_eq_false_iff, beq_eq_false_iff_ne, ne_eq] at hc
    obtain ⟨⟨⟨⟨⟨hc1, hc2⟩, hc3⟩, hc4⟩, hc5⟩, hc6⟩ := hc
    have h1 : (c == ' ' || c == '(' || c == ')') = false := by
      simp [hc1, hc2, hc3]
    have h2 : (c == ',' || c == '\\') = false := by
      simp [hc4, hc5]
    have h3 : (c == '#') = false := by
      simp [hc6]
    rw [List.cons_append]
    simp only [splitChars, h1, h2, h3, Bool.false_eq_true, if_false]
    rw [ih (acc ++ [c]) cs (fun d hd => hw d (List.mem_cons_of_mem _ hd))]
    simp [List.append_assoc]

/-- A line whose data is a non-empty delimiter-free keyword followed by a
space tokenizes to the keyword as its first word. -/
theorem lineWords_keyword (line kw : String) (cs : List Char)
    (hkw : ∀ c ∈ kw.data, isDelim c = false) (hne : kw.data ≠ [])
    (hdata : line.data = kw.data ++ ' ' :: cs) :
    ∃ ws, lineWords line = kw :: ws := by
  have hemp : kw.data.isEmpty = false := by
    cases h : kw.data with
    | nil => exact absurd h hne
    | cons a l => rfl
  refine ⟨(splitChars [] cs).map (fun l => String.mk l), ?_⟩
  unfold lineWords
  rw [hdata, splitChars_word kw.data [] cs hkw]
  simp only [List.nil_append, hemp, Bool.false_eq_true, if_false, List.map_append,
    List.map_cons, List.map_nil, List.singleton_append]

/-- The re-association loop never disturbs a non-comma head token. -/
theorem spliceAux_head (ws : List Token) :
    ∀ (ts : List Token) (i : Nat) (w : Token) (rest : List Token),
    ts = w :: rest → w ≠ "," → 1 ≤ i →
    ∃ rest', spliceAux ts i ws = w :: rest' := by
  induction ws with
  | nil =>
    intro ts i w rest hts _ _
    exact ⟨rest, by rw [hts]; rfl⟩
  | cons w' ws ih =>
    intro ts i w rest hts hw hi
    subst hts
    by_cases hcond :
        (isComment w' && !(w :: rest).isEmpty &&
          ((w :: rest).getD (i - 1) "" == ",")) = true
    · have hi2 : 2 ≤ i := by
        rcases Nat.lt_or_ge i 2 with hlt | hge
        · exfalso
          have hi1 : i = 1 := by omega
          subst hi1
          rw [Bool.and_eq_true, Bool.and_eq_true] at hcond
          have : ((w :: rest).getD 0 "" == ",") = true := by
            simpa using hcond.2
          rw [List.getD_cons_zero] at this
          exact hw (by simpa using this)
        · exact hge
      have hins : insertAt (i - 1) w' (w :: rest) =
          w :: insertAt (i - 2) w' rest := by
        have h12 : i - 1 = (i - 2) + 1 := by omega
        rw [h12]
        rfl
      simp only [spliceAux, hcond, if_true]
      rw [hins]
      exact ih _ (i + 1) w _ rfl hw (by omega)
    · have hcond' :
          (isComment w' && !(w :: rest).isEmpty &&
            ((w :: rest).getD (i - 1) "" == ",")) = false := by
        cases h : (isComment w' && !(w :: rest).isEmpty &&
            ((w :: rest).getD (i - 1) "" == ","))
        · rfl
        · exact absurd h hcond
      simp only [spliceAux, hcond', Bool.false_eq_true, if_false]
      exact ih ((w :: rest) ++ [w']) (i + 1) w (rest ++ [w'])
        (by rw [List.cons_append]) hw (by omega)

/-- The per-line tokenization keeps a non-comma first word first. -/
theorem spliceLine_head (kw : Token) (ws : List Token) (hkw : kw ≠ ",") :
    ∃ rest', spliceLine (kw :: ws) = kw :: rest' := by
  unfold spliceLine
  have h0 : (isComment kw && !(List.isEmpty ([] : List Token)) &&
      ((List.getD ([] : List Token) (0 - 1) "") == ",")) = false := by
    simp
  simp only [spliceAux, h0, Bool.false_eq_true, if_false, List.nil_append]
  exact spliceAux_head ws [kw] 1 kw [] rfl hkw (le_refl 1)

/-- Splitting a list starting with a non-delimiter element keeps that
element at the head of the first segment. -/
theorem list_split_cons_ne {α : Type} [DecidableEq α] (d a : α) (l : List α)
    (h : ¬a = d) :
    list_split d (a :: l) =
      (a :: (list_split d l).headD []) :: (list_split d l).tail := by
  simp [list_split, h]

/-- The backslash re-join can only extend the head token on the right:
the head of a successful re-join starting from a non-empty accumulator
begins with the accumulator's head. -/
theorem rejoin_head (segs : List (List Token)) :
    ∀ (acc : List Token) (w : Token) (rest ts : List Token),
    acc = w :: rest → rejoin acc segs = .ok ts →
    ts ≠ [] ∧ ∃ u, (ts.headD "").data = w.data ++ u := by
  induction segs with
  | nil =>
    intro acc w rest ts hacc hrej
    simp only [rejoin] at hrej
    rw [Except.ok.injEq] at hrej
    subst hrej
    subst hacc
    exact ⟨by simp, [], by simp⟩
  | cons seg segs ih =>
    intro acc w rest ts hacc hrej
    cases seg with
    | nil => simp [rejoin] at hrej
    | cons s srest =>
      simp only [rejoin] at hrej
      subst hacc
      cases rest with
      | nil =>
        have hstep : (([w] : List Token).dropLast ++
            (([w] : List Token).getLastD "" ++ s) :: srest) =
            (w ++ s) :: srest := rfl
        rw [hstep] at hrej
        obtain ⟨hne, u, hu⟩ := ih _ (w ++ s) srest ts rfl hrej
        refine ⟨hne, s.data ++ u, ?_⟩
        rw [hu, string_data_append, List.append_assoc]
      | cons r rs =>
        have hshape : (w :: r :: rs).dropLast ++
            ((w :: r :: rs).getLastD "" ++ s) :: srest =
            w :: ((r :: rs).dropLast ++
              (((r :: rs).getLastD "") ++ s) :: srest) := by
          rfl
        rw [hshape] at hrej
        obtain ⟨hne, u, hu⟩ := ih _ w _ ts rfl hrej
        exact ⟨hne, u, hu⟩

/-- When the first line of a group tokenizes to a keyword first word (not
a comma, not a backslash), a successful run of the whole tokenizer
returns a non-empty sequence whose first token extends that keyword on
the right (the extension being contributed by the backslash re-join). -/
theorem tokenize_keyword (h₀ : String) (lrest : List String) (kw : Token)
    (ws : List Token) (ts : List Token)
    (hlw : lineWords h₀ = kw :: ws) (hkw1 : kw ≠ ",") (hkw2 : ¬(kw = "\\"))
    (htok : tokenize_import_lines (h₀ :: lrest) = .ok ts) :
    ts ≠ [] ∧ ∃ u, (ts.headD "").data = kw.data ++ u := by
  obtain ⟨srest, hsp⟩ := spliceLine_head kw ws hkw1
  rw [← hlw] at hsp
  simp only [tokenize_import_lines, List.map_cons, List.flatten_cons, hsp,
    List.cons_append] at htok
  rw [list_split_cons_ne "\\" kw _ hkw2] at htok
  simp only [rejoin] at htok
  have hstep : ∀ (Z : List Token) (S : List (List Token)),
      rejoin ((([""] : List Token).dropLast) ++
        ((([""] : List Token).getLastD "") ++ kw) :: Z) S =
      rejoin (("" ++ kw) :: Z) S := fun _ _ => rfl
  rw [hstep] at htok
  obtain ⟨hne, u, hu⟩ := rejoin_head _ _ ("" ++ kw) _ ts rfl htok
  refine ⟨hne, u, ?_⟩
  rw [hu, string_data_append]
  rfl

/-- C9 (amended): for every group yielded by `find_imports_from_lines`
on which `tokenize_import_lines` succeeds, the token sequence is
non-empty and its first token *begins with* `import` or `from` — not
necessarily equals it, since the backslash re-join may concatenate the
following fragment onto the keyword (see the counterexample, where the
group `import \` / `os` tokenizes to `importos`).  In particular the
dispatch `tokens[0]` in `parse_statements` never reads from an empty
sequence, and each such group is routed to exactly one of the two
grammar branches. -/
theorem c9_amended (input : List (Nat × String)) (ls : List String)
    (lns : List Nat) (ts : List Token)
    (hmem : (ls, lns) ∈ (find_imports_from_lines input).1)
    (htok : tokenize_import_lines ls = .ok ts) :
    ts ≠ [] ∧ (pyStartsWith (ts.headD "") "import" = true ∨
      pyStartsWith (ts.headD "") "from" = true) := by
  obtain ⟨h₀, lrest, hls, hsw⟩ :=
    runG_headOK input .top trivial (ls, lns) hmem
  have hls' : ls = h₀ :: lrest := hls
  subst hls'
  rcases hsw with hf | hf
  · simp only [pyStartsWith] at hf
    rw [List.isPrefixOf_iff_prefix] at hf
    obtain ⟨cs, hcs⟩ := hf
    have hdata : h₀.data = ("from" : String).data ++ ' ' :: cs := by
      rw [← hcs]
      rfl
    obtain ⟨ws, hlw⟩ :=
      lineWords_keyword h₀ "from" cs (by decide) (by decide) hdata
    obtain ⟨hne, u, hu⟩ :=
      tokenize_keyword h₀ lrest "from" ws ts hlw (by decide) (by decide) htok
    refine ⟨hne, Or.inr ?_⟩
    simp only [pyStartsWith]
    rw [List.isPrefixOf_iff_prefix, hu]
    exact List.prefix_append _ _
  · simp only [pyStartsWith] at hf
    rw [List.isPrefixOf_iff_prefix] at hf
    obtain ⟨cs, hcs⟩ := hf
    have hdata : h₀.data = ("import" : String).data ++ ' ' :: cs := by
      rw [← hcs]
      rfl
    obtain ⟨ws, hlw⟩ :=
      lineWords_keyword h₀ "import" cs (by decide) (by decide) hdata
    obtain ⟨hne, u, hu⟩ :=
      tokenize_keyword h₀ lrest "import" ws ts hlw (by decide) (by decide) htok
    refine ⟨hne, Or.inl ?_⟩
    simp only [pyStartsWith]
    rw [List.isPrefixOf_iff_prefix, hu]
    exact List.prefix_append _ _

/-- Witness for C9: the single-line group `import os`, yielded by the
grouper, tokenizes to a non-empty sequence headed by a token starting
with `import`. -/
theorem c9_witness :
    (["import", "os"] : List Token) ≠ [] ∧
    (pyStartsWith ((["import", "os"] : List Token).headD "") "import" = true ∨
     pyStartsWith ((["import", "os"] : List Token).headD "") "from" = true) :=
  c9_amended [(1, "import os")] ["import os"] [1] ["import", "os"]
    (by decide) rfl
